import Mathlib

/-!
Shallow embedding of the peer-link router of `rns-vpn-rs` (`src/lib.rs`).

The repository is a Reticulum VPN client. `Client::new` validates the
configuration and creates the TUN device; `Client::run` builds the peer
registry (a `BTreeMap<IpAddr, Peer>` keyed by `ip.addr()` of each configured
`IpNet`), then races four loops: the announce broadcaster, the link
establisher (`link_loop`), the egress forwarder (`tun_loop`) and the ingress
injector (`upstream_loop`).

External collaborators (the Reticulum transport, the `etherparse` IP-header
parser, the TUN device, the `AddressHash` hex parser) are passed in as oracle
functions: the embedding fixes only what `src/lib.rs` itself does with their
results. Addresses and identifiers are modelled as natural numbers;
machine-level byte widths are irrelevant to the routing logic verified here.

Each loop is embedded as the step function for one iteration of its `while`
body; the registry-updating steps are collected into a transition relation
`SysStep` for the reachability invariant.
-/

namespace RnsVpn

/-- Opaque mesh-transport destination identifier (`reticulum::hash::AddressHash`). -/
abbrev AddressHash := Nat

/-- Opaque identifier of an outbound link (`reticulum::destination::link::LinkId`). -/
abbrev LinkId := Nat

/-- Virtual IP address (`std::net::IpAddr`), modelled as its numeric value. -/
abbrev IpAddr := Nat

/-- IP network prefix (`ipnet::IpNet`): an address together with a prefix
length. `ipnet`'s `addr()` returns the address component as written (not the
masked network base). Modelled over 32-bit IPv4 values. -/
structure IpNet where
  addr : IpAddr
  prefixLen : Nat
deriving DecidableEq, Repr

/-- Membership of an address in a prefix (`ipnet::IpNet::contains`): the
network bits of the address equal the network bits of the prefix. -/
def IpNet.contains (n : IpNet) (ip : IpAddr) : Bool :=
  ip / 2 ^ (32 - n.prefixLen) == n.addr / 2 ^ (32 - n.prefixLen)

/-- Per-peer state (`struct Peer` in `src/lib.rs`). -/
structure Peer where
  dest : AddressHash
  link_id : Option LinkId
  link_active : Bool
deriving DecidableEq, Repr

/-- The peer registry: the `BTreeMap<IpAddr, Peer>` of `Client::run`, as an
association list in the map's key order. -/
abbrev PeerMap := List (IpAddr × Peer)

/-- Keys of the registry. -/
def keysOf (pm : PeerMap) : List IpAddr := pm.map (·.1)

/-- Lookup by exact key equality (`BTreeMap::get`). -/
def lookupPm : PeerMap → IpAddr → Option Peer
  | [], _ => none
  | (a, p) :: rest, k => if a = k then some p else lookupPm rest k

/-- Configuration (`struct Config`): the local virtual IP prefix, the peer map
from virtual-IP prefix to hex destination string (in `BTreeMap` key order),
and the announce interval. -/
structure Config where
  vpn_ip : IpNet
  peers : List (IpNet × String)
  announce_freq_secs : Nat
deriving DecidableEq, Repr

/-- Client-construction errors (`enum CreateClientError`); only the variants
`Client::new` itself can produce are modelled, the OS-level ones are folded
into the opaque outcome of the TUN oracle. -/
inductive CreateClientError where
  | ConfigError (msg : String)
  | TunError
deriving DecidableEq, Repr

/-- The TUN device is an external collaborator; its successful creation is
opaque to the core. -/
abbrev TunDev := Unit

/-- A constructed client (`struct Client`). -/
structure Client where
  config : Config
  tun : TunDev
deriving DecidableEq, Repr

/-- `BTreeMap::contains_key` on the configuration's peer table: exact `IpNet`
equality of the key. -/
def containsKey (peers : List (IpNet × String)) (k : IpNet) : Bool :=
  peers.any (fun e => e.1 == k)

/-- `Client::new` (`src/lib.rs:60-69`): if `config.vpn_ip` is a key of
`config.peers`, return `ConfigError` immediately; only otherwise is
`Tun::new` invoked (passed here as the oracle `mkTun`). -/
def clientNew (mkTun : IpNet → Except CreateClientError TunDev)
    (config : Config) : Except CreateClientError Client :=
  if containsKey config.peers config.vpn_ip then
    .error (.ConfigError "configured VPN IP exists in peer IPs")
  else
    match mkTun config.vpn_ip with
    | .error e => .error e
    | .ok tun => .ok { config, tun }

/-- Outcome of the peer-map setup at the start of `Client::run`
(`src/lib.rs:73-87`): either the registry is built and the loops start with
it, or a destination hex string fails to parse and `run` returns before any
loop starts (`return` at line 80), or `assert!(peer_map.insert(..).is_none())`
fails and the process panics before any loop starts. -/
inductive BuildResult where
  | ok (pm : PeerMap)
  | parseAbort
  | dupKeyPanic
deriving DecidableEq, Repr

/-- Peer-map setup loop of `Client::run` (`src/lib.rs:73-87`): for each
configured `(ip, dest)` pair in order, parse the destination hex string with
the external `AddressHash::new_from_hex_string` (oracle `parseHash`; on
failure `run` returns), build `Peer { dest, link_id: None, link_active:
false }`, and insert it at key `ip.addr()`, asserting the key was not already
present (on failure the process panics). -/
def buildPeerMap (parseHash : String → Option AddressHash) :
    List (IpNet × String) → PeerMap → BuildResult
  | [], acc => .ok acc
  | (ip, s) :: rest, acc =>
    match parseHash s with
    | none => .parseAbort
    | some dest =>
      if (lookupPm acc ip.addr).isSome then .dupKeyPanic
      else buildPeerMap parseHash rest
        (acc ++ [(ip.addr, { dest, link_id := none, link_active := false })])

/-- A record of one outbound link request issued by the link establisher: the
registry key of the peer it was issued for, and the destination passed to
`transport.link`. -/
abbrev LinkRequest := IpAddr × AddressHash

/-- Body of the per-peer dispatch inside `link_loop` (`src/lib.rs:106-116`):
if the announced destination hash equals the peer's `dest` and the peer's
`link_id` is `None`, request an outbound link from the transport (oracle
`newLink`), record its id in `link_id` and reset `link_active` to `false`;
otherwise leave the peer unchanged. Returns the updated entry and the link
requests issued for it. -/
def linkStepEntry (newLink : AddressHash → LinkId) (ann : AddressHash)
    (e : IpAddr × Peer) : (IpAddr × Peer) × List LinkRequest :=
  if ann = e.2.dest ∧ e.2.link_id = none then
    ((e.1, { e.2 with link_id := some (newLink e.2.dest), link_active := false }),
     [(e.1, e.2.dest)])
  else (e, [])

/-- One iteration of `link_loop` (`src/lib.rs:101-118`) on an inbound
announce: scan all registry entries (`values_mut`) in order, updating each
with `linkStepEntry`, collecting the outbound link requests issued. -/
def linkStepGo (newLink : AddressHash → LinkId) (ann : AddressHash) :
    PeerMap → PeerMap × List LinkRequest
  | [] => ([], [])
  | e :: rest =>
    let (e1, reqs) := linkStepEntry newLink ann e
    let (pm1, reqs1) := linkStepGo newLink ann rest
    (e1 :: pm1, reqs ++ reqs1)

/-- Processing of a whole sequence of inbound announces by `link_loop`. -/
def linkSteps (newLink : AddressHash → LinkId) :
    List AddressHash → PeerMap → PeerMap × List LinkRequest
  | [], pm => (pm, [])
  | ann :: rest, pm =>
    let (pm1, reqs) := linkStepGo newLink ann pm
    let (pm2, reqs1) := linkSteps newLink rest pm1
    (pm2, reqs ++ reqs1)

/-- A transmitted data payload: the outbound link it was sent on and its raw
bytes (`link.data_packet(&bytes)` followed by `transport.send_packet`). -/
abbrev Transmission := LinkId × List Nat

/-- One iteration of `tun_loop` (`src/lib.rs:120-150`) on a packet read from
the interface: parse the IP header and extract the destination address (the
external `etherparse` parse and the v4/v6 destination extraction are the
oracle `parseDest`; `None` covers both a parse failure and a header with
neither family, lines 123-133); resolve it in the registry by exact key
lookup; require `link_id` to be set; ask the transport for the outbound link
to the peer's destination (oracle `findOutLink`); on success transmit the raw
bytes on that link. The loop only reads the registry (`get`), so the registry
component is returned unchanged; every drop branch transmits nothing. -/
def tunStep (pm : PeerMap) (findOutLink : AddressHash → Option LinkId)
    (parseDest : List Nat → Option IpAddr) (bytes : List Nat) :
    PeerMap × List Transmission :=
  match parseDest bytes with
  | none => (pm, [])
  | some destinationIp =>
    match lookupPm pm destinationIp with
    | none => (pm, [])
    | some peer =>
      match peer.link_id with
      | none => (pm, [])
      | some _ =>
        match findOutLink peer.dest with
        | none => (pm, [])
        | some link => (pm, [(link, bytes)])

/-- Inbound link-event kinds (`reticulum::destination::link::LinkEvent`). -/
inductive LinkEventKind where
  | data (payload : List Nat)
  | activated
  | closed
deriving DecidableEq, Repr

/-- An inbound link event as received by `upstream_loop`: the destination
address hash it is scoped to, the link id it is tagged with, and its kind. -/
structure LinkEvent where
  addressHash : AddressHash
  id : LinkId
  event : LinkEventKind
deriving DecidableEq, Repr

/-- One iteration of `upstream_loop` (`src/lib.rs:152-180`) on an inbound
link event, given the local destination's address hash. A data event whose
address hash equals the local one writes its payload to the interface (the
writes are collected in the second component); an activation event whose
address hash equals the local one marks every peer whose `link_id` equals the
event's link id as active; a closure event is only logged; every event whose
address hash differs from the local one does nothing. -/
def upstreamStep (inDest : AddressHash) (pm : PeerMap) (ev : LinkEvent) :
    PeerMap × List (List Nat) :=
  match ev.event with
  | .data payload =>
    if ev.addressHash = inDest then (pm, [payload]) else (pm, [])
  | .activated =>
    if ev.addressHash = inDest then
      (pm.map (fun e =>
        if e.2.link_id = some ev.id then (e.1, { e.2 with link_active := true })
        else e), [])
    else (pm, [])
  | .closed => (pm, [])

/-- Registry-updating steps of the four concurrent loops, as a transition
relation on the registry: the link establisher on an arbitrary announce, the
ingress injector on an arbitrary link event, and the egress forwarder on an
arbitrary packet (which only reads the registry). The announce broadcaster
never touches the registry. -/
inductive SysStep (newLink : AddressHash → LinkId) (inDest : AddressHash) :
    PeerMap → PeerMap → Prop
  | announce (pm : PeerMap) (ann : AddressHash) :
      SysStep newLink inDest pm (linkStepGo newLink ann pm).1
  | upstream (pm : PeerMap) (ev : LinkEvent) :
      SysStep newLink inDest pm (upstreamStep inDest pm ev).1
  | egress (pm : PeerMap) (findOutLink : AddressHash → Option LinkId)
      (parseDest : List Nat → Option IpAddr) (bytes : List Nat) :
      SysStep newLink inDest pm (tunStep pm findOutLink parseDest bytes).1

/-- Reachability by any interleaving of the loops' registry-updating steps. -/
def Reach (newLink : AddressHash → LinkId) (inDest : AddressHash) :
    PeerMap → PeerMap → Prop :=
  Relation.ReflTransGen (SysStep newLink inDest)

/-- The per-peer invariant of the spec's data model: an active link implies a
recorded link id. -/
def InvActive (pm : PeerMap) : Prop :=
  ∀ e ∈ pm, e.2.link_active = true → e.2.link_id.isSome

/-- Hexadecimal digit value, if any. -/
def hexDigit (c : Char) : Option Nat :=
  if '0' ≤ c ∧ c ≤ '9' then some (c.toNat - '0'.toNat)
  else if 'a' ≤ c ∧ c ≤ 'f' then some (c.toNat - 'a'.toNat + 10)
  else if 'A' ≤ c ∧ c ≤ 'F' then some (c.toNat - 'A'.toNat + 10)
  else none

/-- Value of a hex digit string, if every character is a hex digit. -/
def hexValue : List Char → Option Nat
  | [] => some 0
  | c :: rest =>
    match hexDigit c, hexValue rest with
    | some d, some v => some (d * 16 ^ rest.length + v)
    | _, _ => none

/-- Concrete model of the external `AddressHash::new_from_hex_string`
interface: a 16-byte address hash parses from exactly 32 hex characters and
fails on anything else. Used to instantiate the `parseHash` oracle on
concrete inputs. -/
def hexParse16 (s : String) : Option AddressHash :=
  if s.length = 32 then hexValue s.toList else none

/-! Helper lemmas about the step functions. -/

/-- Peer state right after a link request: the returned link id is recorded
and `link_active` is reset, awaiting the activation event. -/
def peerLinked (newLink : AddressHash → LinkId) (p : Peer) : Peer :=
  { p with link_id := some (newLink p.dest), link_active := false }

/-- An entry is either untouched by the link establisher, or gets a fresh
link id recorded with `link_active` reset. -/
theorem linkStepEntry_cases (newLink : AddressHash → LinkId)
    (ann : AddressHash) (e : IpAddr × Peer) :
    (linkStepEntry newLink ann e).1 = e ∨
    ((linkStepEntry newLink ann e).1 = (e.1, peerLinked newLink e.2)
      ∧ ann = e.2.dest ∧ e.2.link_id = none) := by
  unfold linkStepEntry peerLinked
  by_cases h : ann = e.2.dest ∧ e.2.link_id = none <;> simp [h]

/-- The link establisher does not change an entry's key. -/
theorem linkStepEntry_key (newLink : AddressHash → LinkId)
    (ann : AddressHash) (e : IpAddr × Peer) :
    (linkStepEntry newLink ann e).1.1 = e.1 := by
  unfold linkStepEntry
  by_cases h : ann = e.2.dest ∧ e.2.link_id = none <;> simp [h]

/-- The registry after one announce is the entrywise update of the registry
before it. -/
theorem linkStepGo_fst (newLink : AddressHash → LinkId) (ann : AddressHash) :
    ∀ pm : PeerMap, (linkStepGo newLink ann pm).1
      = pm.map (fun e => (linkStepEntry newLink ann e).1)
  | [] => rfl
  | e :: rest => by
    simp only [linkStepGo, List.map_cons, List.cons.injEq]
    exact ⟨trivial, linkStepGo_fst newLink ann rest⟩

/-- The link establisher never changes the registry's key list. -/
theorem keysOf_linkStepGo (newLink : AddressHash → LinkId)
    (ann : AddressHash) (pm : PeerMap) :
    keysOf (linkStepGo newLink ann pm).1 = keysOf pm := by
  rw [linkStepGo_fst]
  induction pm with
  | nil => rfl
  | cons e rest ih =>
    simp only [keysOf, List.map_cons] at ih ⊢
    rw [linkStepEntry_key, ih]

/-- The egress forwarder never changes the registry. -/
theorem tunStep_fst (pm : PeerMap) (findOutLink : AddressHash → Option LinkId)
    (parseDest : List Nat → Option IpAddr) (bytes : List Nat) :
    (tunStep pm findOutLink parseDest bytes).1 = pm := by
  unfold tunStep
  repeat' split
  all_goals rfl

/-- The link establisher preserves the active-implies-id invariant. -/
theorem invActive_linkStepGo (newLink : AddressHash → LinkId)
    (ann : AddressHash) (pm : PeerMap) (h : InvActive pm) :
    InvActive (linkStepGo newLink ann pm).1 := by
  rw [linkStepGo_fst]
  intro e1 he1 hact
  obtain ⟨e, he, hfe⟩ := List.mem_map.mp he1
  rcases linkStepEntry_cases newLink ann e with heq | ⟨heq, _, _⟩
  · rw [heq] at hfe
    rw [← hfe] at hact ⊢
    exact h e he hact
  · rw [heq] at hfe
    rw [← hfe]
    simp [peerLinked]

/-- The ingress injector preserves the active-implies-id invariant: a peer is
marked active only when its recorded `link_id` equals the event's link id. -/
theorem invActive_upstreamStep (inDest : AddressHash) (pm : PeerMap)
    (ev : LinkEvent) (h : InvActive pm) :
    InvActive (upstreamStep inDest pm ev).1 := by
  unfold upstreamStep
  cases ev.event with
  | data payload =>
    by_cases hh : ev.addressHash = inDest <;> simp only [hh] <;> simpa using h
  | activated =>
    by_cases hh : ev.addressHash = inDest
    · simp only [hh, if_pos rfl]
      intro e1 he1 hact
      rcases List.mem_map.mp he1 with ⟨e, he, rfl⟩
      by_cases hid : e.2.link_id = some ev.id
      · simp [hid]
      · simp only [hid, if_neg] at hact ⊢
        exact h e he hact
    · simp only [hh, if_neg (by exact hh)]
      exact h
  | closed => exact h

/-- Every registry-updating step of the four loops preserves the
active-implies-id invariant. -/
theorem invActive_sysStep {newLink : AddressHash → LinkId}
    {inDest : AddressHash} {pm pm1 : PeerMap}
    (hstep : SysStep newLink inDest pm pm1) (h : InvActive pm) :
    InvActive pm1 := by
  cases hstep with
  | announce ann => exact invActive_linkStepGo newLink ann pm h
  | upstream ev => exact invActive_upstreamStep inDest pm ev h
  | egress findOutLink parseDest bytes =>
    rw [tunStep_fst]
    exact h

/-- Number of outbound link requests issued for the peer at registry key
`k`. -/
def countReqs (k : IpAddr) (reqs : List LinkRequest) : Nat :=
  (reqs.filter (fun r => r.1 == k)).length

/-- Measure for the at-most-one-attempt argument: how many link requests the
peer at key `k` can still receive (one while its `link_id` is `None`, none
afterwards or when the key is absent). -/
def budget (pm : PeerMap) (k : IpAddr) : Nat :=
  match lookupPm pm k with
  | some p => if p.link_id = none then 1 else 0
  | none => 0

theorem countReqs_append (k : IpAddr) (l1 l2 : List LinkRequest) :
    countReqs k (l1 ++ l2) = countReqs k l1 + countReqs k l2 := by
  unfold countReqs
  rw [List.filter_append, List.length_append]

theorem countReqs_nil (k : IpAddr) : countReqs k [] = 0 := rfl

/-- The requests emitted for one entry: one request exactly when the
announce matches the peer's destination and no link id is recorded yet. -/
theorem linkStepEntry_snd (newLink : AddressHash → LinkId)
    (ann : AddressHash) (e : IpAddr × Peer) :
    (linkStepEntry newLink ann e).2
      = if ann = e.2.dest ∧ e.2.link_id = none then [(e.1, e.2.dest)]
        else [] := by
  unfold linkStepEntry
  by_cases h : ann = e.2.dest ∧ e.2.link_id = none <;> simp [h]

theorem keysOf_cons (e : IpAddr × Peer) (rest : PeerMap) :
    keysOf (e :: rest) = e.1 :: keysOf rest := rfl

theorem lookupPm_cons_self (a : IpAddr) (p : Peer) (rest : PeerMap) :
    lookupPm ((a, p) :: rest) a = some p := by
  simp [lookupPm]

theorem lookupPm_cons_ne (a : IpAddr) (p : Peer) (rest : PeerMap)
    (k : IpAddr) (h : a ≠ k) :
    lookupPm ((a, p) :: rest) k = lookupPm rest k := by
  simp [lookupPm, h]

/-- Every link request of one announce round carries the key of a registry
entry. -/
theorem linkStepGo_req_keys (newLink : AddressHash → LinkId)
    (ann : AddressHash) :
    ∀ pm : PeerMap, ∀ r ∈ (linkStepGo newLink ann pm).2, r.1 ∈ keysOf pm
  | [] => by
    intro r hr
    cases hr
  | e :: rest => by
    intro r hr
    simp only [linkStepGo] at hr
    rw [keysOf_cons]
    rcases List.mem_append.mp hr with hr1 | hr2
    · rw [linkStepEntry_snd] at hr1
      split at hr1
      · rw [List.mem_singleton.mp hr1]
        exact List.mem_cons_self _ _
      · cases hr1
    · exact List.mem_cons_of_mem _
        (linkStepGo_req_keys newLink ann rest r hr2)

/-- A key absent from the registry receives no requests. -/
theorem countReqs_linkStepGo_of_not_mem (newLink : AddressHash → LinkId)
    (ann : AddressHash) (pm : PeerMap) (k : IpAddr)
    (h : k ∉ keysOf pm) : countReqs k (linkStepGo newLink ann pm).2 = 0 := by
  unfold countReqs
  rw [List.length_eq_zero, List.filter_eq_nil_iff]
  intro r hr hk
  have hrk : r.1 = k := by simpa using hk
  exact h (hrk ▸ linkStepGo_req_keys newLink ann pm r hr)

/-- One announce round: the requests issued at key `k` plus what the peer at
`k` can still receive never exceed what it could receive before. -/
theorem countReqs_linkStepGo_budget (newLink : AddressHash → LinkId)
    (ann : AddressHash) :
    ∀ pm : PeerMap, ∀ k, (keysOf pm).Nodup →
      countReqs k (linkStepGo newLink ann pm).2
        + budget (linkStepGo newLink ann pm).1 k ≤ budget pm k
  | [] => by
    intro k _
    exact Nat.le_refl 0
  | (a, p) :: rest => by
    intro k hnd
    rw [keysOf_cons, List.nodup_cons] at hnd
    obtain ⟨hmem, hnd⟩ := hnd
    simp only [linkStepGo]
    rw [countReqs_append]
    by_cases hk : a = k
    · subst hk
      have hrest0 : countReqs a (linkStepGo newLink ann rest).2 = 0 :=
        countReqs_linkStepGo_of_not_mem newLink ann rest a hmem
      rw [hrest0, Nat.add_zero]
      by_cases htr : ann = (a, p).2.dest ∧ (a, p).2.link_id = none
      · have he1 : (linkStepEntry newLink ann (a, p)).1
            = (a, peerLinked newLink p) := by
          unfold linkStepEntry
          rw [if_pos htr]
          rfl
        have he2 : (linkStepEntry newLink ann (a, p)).2 = [(a, p.dest)] := by
          unfold linkStepEntry
          rw [if_pos htr]
        rw [he1, he2]
        have hcnt : countReqs a [(a, p.dest)] = 1 := by
          simp [countReqs]
        have hpost : budget ((a, peerLinked newLink p)
            :: (linkStepGo newLink ann rest).1) a = 0 := by
          unfold budget
          rw [lookupPm_cons_self]
          simp [peerLinked]
        have hpre : budget ((a, p) :: rest) a = 1 := by
          unfold budget
          rw [lookupPm_cons_self]
          simp [show p.link_id = none from htr.2]
        rw [hcnt, hpost, hpre]
      · have he1 : (linkStepEntry newLink ann (a, p)).1 = (a, p) := by
          unfold linkStepEntry
          rw [if_neg htr]
        have he2 : (linkStepEntry newLink ann (a, p)).2 = [] := by
          unfold linkStepEntry
          rw [if_neg htr]
        rw [he1, he2, countReqs_nil]
        have hsame : budget ((a, p) :: (linkStepGo newLink ann rest).1) a
            = budget ((a, p) :: rest) a := by
          unfold budget
          rw [lookupPm_cons_self, lookupPm_cons_self]
        rw [hsame]
        omega
    · have hhead : countReqs k (linkStepEntry newLink ann (a, p)).2 = 0 := by
        rw [linkStepEntry_snd]
        split
        · simp [countReqs, hk]
        · rfl
      rw [hhead, Nat.zero_add]
      obtain ⟨w, hw⟩ : ∃ q, (linkStepEntry newLink ann (a, p)).1 = (a, q) := by
        rcases linkStepEntry_cases newLink ann (a, p) with heq | ⟨heq, _, _⟩
        · exact ⟨p, heq⟩
        · exact ⟨_, heq⟩
      rw [hw]
      have hb1 : budget ((a, w) :: (linkStepGo newLink ann rest).1) k
          = budget (linkStepGo newLink ann rest).1 k := by
        unfold budget
        rw [lookupPm_cons_ne a w _ k hk]
      have hb2 : budget ((a, p) :: rest) k = budget rest k := by
        unfold budget
        rw [lookupPm_cons_ne a p rest k hk]
      rw [hb1, hb2]
      exact countReqs_linkStepGo_budget newLink ann rest k hnd

/-- Over a whole announce sequence the requests issued at key `k` never
exceed the initial budget. -/
theorem countReqs_linkSteps_budget (newLink : AddressHash → LinkId) :
    ∀ (anns : List AddressHash) (pm : PeerMap) (k : IpAddr),
      (keysOf pm).Nodup →
      countReqs k (linkSteps newLink anns pm).2 ≤ budget pm k
  | [], pm, k, _ => Nat.zero_le _
  | ann :: rest, pm, k, hnd => by
    simp only [linkSteps]
    rw [countReqs_append]
    have hnd1 : (keysOf (linkStepGo newLink ann pm).1).Nodup := by
      rw [keysOf_linkStepGo]
      exact hnd
    have ih := countReqs_linkSteps_budget newLink rest
      (linkStepGo newLink ann pm).1 k hnd1
    have hstep := countReqs_linkStepGo_budget newLink ann pm k hnd
    omega

/-- The budget of any key is at most one. -/
theorem budget_le_one (pm : PeerMap) (k : IpAddr) : budget pm k ≤ 1 := by
  unfold budget
  split
  · split
    · exact Nat.le_refl 1
    · exact Nat.zero_le 1
  · exact Nat.zero_le 1

/-- A link request issued for key `k` during one announce round means the
peer at `k` had no `link_id` at that moment and the announce carried its
destination. -/
theorem linkStepGo_req_sound (newLink : AddressHash → LinkId)
    (ann : AddressHash) :
    ∀ (pm : PeerMap) (k : IpAddr), (keysOf pm).Nodup →
      k ∈ (linkStepGo newLink ann pm).2.map (fun r => r.1) →
      ∃ p, lookupPm pm k = some p ∧ ann = p.dest ∧ p.link_id = none
  | [] => by
    intro k _ hmem
    cases hmem
  | (a, q) :: rest => by
    intro k hnd hmem
    rw [keysOf_cons, List.nodup_cons] at hnd
    obtain ⟨hamem, hnd⟩ := hnd
    simp only [linkStepGo, List.map_append] at hmem
    rcases List.mem_append.mp hmem with h1 | h2
    · rw [linkStepEntry_snd] at h1
      by_cases htr : ann = (a, q).2.dest ∧ (a, q).2.link_id = none
      · rw [if_pos htr] at h1
        have hk : k = a := by simpa using h1
        subst hk
        exact ⟨q, lookupPm_cons_self k q rest, htr.1, htr.2⟩
      · rw [if_neg htr] at h1
        cases h1
    · have hkmem : k ∈ keysOf rest := by
        obtain ⟨r, hr, hrk⟩ := List.mem_map.mp h2
        exact hrk ▸ linkStepGo_req_keys newLink ann rest r hr
      have hank : a ≠ k := fun h => hamem (by rw [h]; exact hkmem)
      rw [lookupPm_cons_ne a q rest k hank]
      exact linkStepGo_req_sound newLink ann rest k hnd h2

theorem keysOf_append (l1 l2 : PeerMap) :
    keysOf (l1 ++ l2) = keysOf l1 ++ keysOf l2 :=
  List.map_append _ _ _

/-- A lookup succeeds exactly on the stored keys. -/
theorem lookupPm_isSome_iff (k : IpAddr) :
    ∀ pm : PeerMap, (lookupPm pm k).isSome = true ↔ k ∈ keysOf pm
  | [] => by
    simp [lookupPm, keysOf]
  | (a, p) :: rest => by
    rw [keysOf_cons]
    by_cases h : a = k
    · subst h
      rw [lookupPm_cons_self]
      simp
    · rw [lookupPm_cons_ne a p rest k h]
      simp [Ne.symm h, lookupPm_isSome_iff k rest]

theorem lookupPm_eq_none (pm : PeerMap) (k : IpAddr) (h : k ∉ keysOf pm) :
    lookupPm pm k = none := by
  cases hl : lookupPm pm k with
  | none => rfl
  | some p =>
    exact absurd ((lookupPm_isSome_iff k pm).mp (by rw [hl]; rfl)) h

/-- On success, the peer-map setup keys the registry by the address component
of each configured prefix, in configuration order, appended to the
accumulator's keys. -/
theorem buildPeerMap_ok_keys (parseHash : String → Option AddressHash) :
    ∀ (peers : List (IpNet × String)) (acc pm : PeerMap),
      buildPeerMap parseHash peers acc = .ok pm →
      keysOf pm = keysOf acc ++ peers.map (fun e => e.1.addr)
  | [], acc, pm => by
    intro h
    simp only [buildPeerMap, BuildResult.ok.injEq] at h
    subst h
    simp
  | (ip, s) :: rest, acc, pm => by
    intro h
    simp only [buildPeerMap] at h
    cases hp : parseHash s with
    | none =>
      simp only [hp] at h
      exact BuildResult.noConfusion h
    | some d =>
      simp only [hp] at h
      by_cases hdup : (lookupPm acc ip.addr).isSome = true
      · rw [if_pos hdup] at h
        simp at h
      · rw [if_neg hdup] at h
        have ih := buildPeerMap_ok_keys parseHash rest
          (acc ++ [(ip.addr, { dest := d, link_id := none, link_active := false })]) pm h
        rw [ih, keysOf_append, List.append_assoc]
        rfl

/-- On success, every configured destination string parsed. -/
theorem buildPeerMap_ok_parses (parseHash : String → Option AddressHash) :
    ∀ (peers : List (IpNet × String)) (acc pm : PeerMap),
      buildPeerMap parseHash peers acc = .ok pm →
      ∀ e ∈ peers, (parseHash e.2).isSome = true
  | [], _, _ => by
    intro _ e he
    cases he
  | (ip, s) :: rest, acc, pm => by
    intro h e he
    simp only [buildPeerMap] at h
    cases hp : parseHash s with
    | none =>
      simp only [hp] at h
      exact BuildResult.noConfusion h
    | some d =>
      simp only [hp] at h
      by_cases hdup : (lookupPm acc ip.addr).isSome = true
      · rw [if_pos hdup] at h
        simp at h
      · rw [if_neg hdup] at h
        rcases List.mem_cons.mp he with heq | hrest
        · subst heq
          simp [hp]
        · exact buildPeerMap_ok_parses parseHash rest _ pm h e hrest

/-- When every destination string parses, the setup panics exactly when the
accumulated keys together with the configured base addresses repeat. -/
theorem buildPeerMap_panic_iff (parseHash : String → Option AddressHash) :
    ∀ (peers : List (IpNet × String)) (acc : PeerMap),
      (∀ e ∈ peers, (parseHash e.2).isSome = true) → (keysOf acc).Nodup →
      (buildPeerMap parseHash peers acc = .dupKeyPanic ↔
        ¬ (keysOf acc ++ peers.map (fun e => e.1.addr)).Nodup)
  | [], acc => by
    intro _ hacc
    simp only [buildPeerMap, List.map_nil, List.append_nil]
    constructor
    · intro h
      simp at h
    · intro h
      exact absurd hacc h
  | (ip, s) :: rest, acc => by
    intro hparse hacc
    obtain ⟨d, hd⟩ := Option.isSome_iff_exists.mp
      (hparse (ip, s) (List.mem_cons_self _ _))
    have hd1 : parseHash s = some d := hd
    simp only [buildPeerMap, List.map_cons, hd1]
    by_cases hdup : (lookupPm acc ip.addr).isSome = true
    · rw [if_pos hdup]
      constructor
      · intro _ hnd
        have hmem : ip.addr ∈ keysOf acc := (lookupPm_isSome_iff _ acc).mp hdup
        rw [List.nodup_append] at hnd
        exact hnd.2.2 hmem (List.mem_cons_self _ _)
      · intro _
        rfl
    · rw [if_neg hdup]
      have hnotmem : ip.addr ∉ keysOf acc :=
        fun hm => hdup ((lookupPm_isSome_iff _ acc).mpr hm)
      have hacc1 : (keysOf
          (acc ++ [(ip.addr, { dest := d, link_id := none, link_active := false })])).Nodup := by
        rw [keysOf_append, List.nodup_append]
        refine ⟨hacc, List.nodup_singleton _, ?_⟩
        intro x hx hx2
        simp only [keysOf, List.map_cons, List.map_nil, List.mem_singleton] at hx2
        exact hnotmem (hx2 ▸ hx)
      have ih := buildPeerMap_panic_iff parseHash rest
        (acc ++ [(ip.addr, { dest := d, link_id := none, link_active := false })])
        (fun e he => hparse e (List.mem_cons_of_mem _ he)) hacc1
      rw [ih, keysOf_append, List.append_assoc]
      rfl

/-! Theorems for the claims. -/

/-- C1: for every egress packet read from the interface whose parsed IP
destination address equals a registry key mapped to peer `p`, where `p` has
an active link (its `link_active` flag set and a `link_id` recorded) and the
transport returns an outbound link handle for `p`'s destination, exactly one
data payload is transmitted, its bytes equal to the original raw packet
bytes, on the link associated with `p`. -/
theorem c1_egress_dispatch (pm : PeerMap)
    (findOutLink : AddressHash → Option LinkId)
    (parseDest : List Nat → Option IpAddr) (bytes : List Nat)
    (dip : IpAddr) (p : Peer) (lid l : LinkId)
    (hparse : parseDest bytes = some dip)
    (hpeer : lookupPm pm dip = some p)
    (hactive : p.link_active = true)
    (hid : p.link_id = some lid)
    (hlink : findOutLink p.dest = some l) :
    tunStep pm findOutLink parseDest bytes = (pm, [(l, bytes)]) := by
  simp only [tunStep, hparse, hpeer, hid, hlink]

/-- Witness for C1 at a concrete registry, packet and transport. -/
theorem c1_egress_dispatch_witness :
    tunStep [(2, { dest := 7, link_id := some 4, link_active := true })]
        (fun d => if d = 7 then some 9 else none) (fun _ => some 2) [1, 2, 3]
      = ([(2, { dest := 7, link_id := some 4, link_active := true })],
         [(9, [1, 2, 3])]) :=
  c1_egress_dispatch _ _ _ [1, 2, 3] 2
    { dest := 7, link_id := some 4, link_active := true } 4 9
    rfl rfl rfl rfl rfl

/-- C5: for every egress packet, if its IP header fails to parse, or its
parsed destination address matches no registry key, or the matched peer's
`link_id` is `None`, or the transport returns no outbound link for the
peer's destination, then zero payloads are transmitted and the registry is
untouched (no link establishment); `tunStep` is total, so the egress loop
continues without failing. -/
theorem c5_egress_drop (pm : PeerMap)
    (findOutLink : AddressHash → Option LinkId)
    (parseDest : List Nat → Option IpAddr) (bytes : List Nat)
    (h : parseDest bytes = none
      ∨ (∃ dip, parseDest bytes = some dip ∧ lookupPm pm dip = none)
      ∨ (∃ dip p, parseDest bytes = some dip ∧ lookupPm pm dip = some p ∧
          p.link_id = none)
      ∨ (∃ dip p lid, parseDest bytes = some dip ∧ lookupPm pm dip = some p ∧
          p.link_id = some lid ∧ findOutLink p.dest = none)) :
    tunStep pm findOutLink parseDest bytes = (pm, []) := by
  rcases h with h | ⟨dip, h1, h2⟩ | ⟨dip, p, h1, h2, h3⟩ |
    ⟨dip, p, lid, h1, h2, h3, h4⟩
  · simp only [tunStep, h]
  · simp only [tunStep, h1, h2]
  · simp only [tunStep, h1, h2, h3]
  · simp only [tunStep, h1, h2, h3, h4]

/-- Witness for C5: a concrete packet whose destination matches no key. -/
theorem c5_egress_drop_witness :
    tunStep [(2, { dest := 7, link_id := none, link_active := false })]
        (fun _ => none) (fun _ => some 5) [9]
      = ([(2, { dest := 7, link_id := none, link_active := false })], []) :=
  c5_egress_drop _ _ _ _ (Or.inr (Or.inl ⟨5, rfl, rfl⟩))

/-- C8: for every inbound link closure event addressed to the local
destination, the registry is returned unchanged (every peer keeps its
`link_id` and `link_active`) and nothing is written to the interface; the
event is only logged. -/
theorem c8_closed_no_cleanup (inDest : AddressHash) (lid : LinkId)
    (pm : PeerMap) :
    upstreamStep inDest pm { addressHash := inDest, id := lid, event := .closed }
      = (pm, []) := rfl

/-- C2: for every inbound link data event the payload is written to the
interface exactly once, byte-for-byte, if and only if the event's address
identifier equals the local destination's address hash (and a data event
never mutates the registry); and every link event, of any kind, carrying a
different address identifier causes no interface write and no registry
mutation. -/
theorem c2_ingress_filtering (inDest : AddressHash) (pm : PeerMap)
    (ev : LinkEvent) :
    (∀ payload, ev.event = .data payload →
      ((upstreamStep inDest pm ev).2 = [payload] ↔ ev.addressHash = inDest)
        ∧ (upstreamStep inDest pm ev).1 = pm)
    ∧ (ev.addressHash ≠ inDest → upstreamStep inDest pm ev = (pm, [])) := by
  constructor
  · intro payload hev
    unfold upstreamStep
    rw [hev]
    by_cases h : ev.addressHash = inDest <;> simp [h]
  · intro hne
    unfold upstreamStep
    cases ev.event with
    | data payload => simp [hne]
    | activated => simp [hne]
    | closed => rfl

/-- Witness for C2: a matching data event writes its payload; a foreign
activation event changes nothing. -/
theorem c2_ingress_filtering_witness :
    (upstreamStep 1 [(2, { dest := 7, link_id := some 4, link_active := true })]
        { addressHash := 1, id := 4, event := .data [5, 6] }).2 = [[5, 6]]
    ∧ upstreamStep 1 [(2, { dest := 7, link_id := some 4, link_active := true })]
        { addressHash := 3, id := 4, event := .activated }
      = ([(2, { dest := 7, link_id := some 4, link_active := true })], []) :=
  ⟨((c2_ingress_filtering 1 _ _).1 [5, 6] rfl).1.mpr rfl,
   (c2_ingress_filtering 1 _
     { addressHash := 3, id := 4, event := .activated }).2 (by decide)⟩

/-- C6: for every configuration in which `vpn_ip` equals one of the peer
map's keys, `Client::new` returns `ConfigError`, whatever the TUN oracle
would do — so the TUN device is never created and, there being no client,
no loop ever runs. -/
theorem c6_vpn_ip_conflict (config : Config)
    (h : containsKey config.peers config.vpn_ip = true) :
    ∀ mkTun, clientNew mkTun config
      = .error (.ConfigError ("configured VPN IP exists in peer IPs")) := by
  intro mkTun
  simp [clientNew, h]

/-- C3: for every peer (registry key, with the registry's keys unique as the
source `BTreeMap` guarantees) and every sequence of inbound announce events:
an outbound link request for that peer is issued only when the peer's
`link_id` is `None` at the moment of the announce (and the announce carries
the peer's destination); and over any announce sequence at most one outbound
link request is ever issued for that peer, so repeated announces arriving
while `link_id` is already `Some` never trigger a second one. -/
theorem c3_at_most_one_link_request (newLink : AddressHash → LinkId)
    (k : IpAddr) :
    (∀ (pm : PeerMap) (ann : AddressHash), (keysOf pm).Nodup →
      k ∈ (linkStepGo newLink ann pm).2.map (fun r => r.1) →
      ∃ p, lookupPm pm k = some p ∧ ann = p.dest ∧ p.link_id = none)
    ∧ (∀ (pm : PeerMap) (anns : List AddressHash), (keysOf pm).Nodup →
      countReqs k (linkSteps newLink anns pm).2 ≤ 1) := by
  constructor
  · intro pm ann hnd hmem
    exact linkStepGo_req_sound newLink ann pm k hnd hmem
  · intro pm anns hnd
    exact le_trans (countReqs_linkSteps_budget newLink anns pm k hnd)
      (budget_le_one pm k)

/-- Witness for C3 at a concrete one-peer registry: an announce issues a
request while `link_id` is `None`, and the same announce repeated twice
issues at most one request in total. -/
theorem c3_at_most_one_link_request_witness :
    (∃ p, lookupPm [(5, { dest := 9, link_id := none, link_active := false })] 5
        = some p ∧ 9 = p.dest ∧ p.link_id = none)
    ∧ countReqs 5 (linkSteps (fun _ => 100) [9, 9]
        [(5, { dest := 9, link_id := none, link_active := false })]).2 ≤ 1 :=
  ⟨(c3_at_most_one_link_request (fun _ => 100) 5).1
      [(5, { dest := 9, link_id := none, link_active := false })] 9
      (by decide) (by decide),
   (c3_at_most_one_link_request (fun _ => 100) 5).2
      [(5, { dest := 9, link_id := none, link_active := false })] [9, 9]
      (by decide)⟩

/-- C4: in every state reachable by any interleaving of the loops'
registry-updating steps from an initial registry in which every peer has
`link_id = None` and `link_active = false`, every peer satisfies
`link_active == true` implies `link_id.is_some()`. -/
theorem c4_active_implies_link (newLink : AddressHash → LinkId)
    (inDest : AddressHash) (pm0 pm : PeerMap)
    (hinit : ∀ e ∈ pm0, e.2.link_id = none ∧ e.2.link_active = false)
    (hreach : Reach newLink inDest pm0 pm) : InvActive pm := by
  have h0 : InvActive pm0 := by
    intro e he hact
    rw [(hinit e he).2] at hact
    cases hact
  induction hreach with
  | refl => exact h0
  | tail _ hstep ih => exact invActive_sysStep hstep ih

/-- Witness for C4 at a concrete initial registry and the empty
interleaving. -/
theorem c4_active_implies_link_witness :
    InvActive [(2, { dest := 7, link_id := none, link_active := false })] :=
  c4_active_implies_link (fun _ => 0) 1 _ _ (by decide)
    Relation.ReflTransGen.refl

/-- Witness for C6: a concrete conflicting configuration. -/
theorem c6_vpn_ip_conflict_witness :
    clientNew (fun _ => .ok ())
        { vpn_ip := { addr := 5, prefixLen := 24 },
          peers := [({ addr := 5, prefixLen := 24 }, "ab")],
          announce_freq_secs := 1 }
      = .error (.ConfigError ("configured VPN IP exists in peer IPs")) :=
  c6_vpn_ip_conflict _ (by decide) _

/-- Counterexample for C7: a configuration whose single peer destination
string `"zz"` does not parse as an address hash, yet `Client::new`
succeeds — the parse failure is not detected at construction, because
`Client::new` never looks at the destination strings (they are first parsed
in `Client::run`). -/
theorem c7_counterexample :
    hexParse16 "zz" = none
    ∧ clientNew (fun _ => .ok ())
        { vpn_ip := { addr := 1, prefixLen := 32 },
          peers := [({ addr := 2, prefixLen := 32 }, "zz")],
          announce_freq_secs := 1 }
      = .ok { config := { vpn_ip := { addr := 1, prefixLen := 32 },
                          peers := [({ addr := 2, prefixLen := 32 }, "zz")],
                          announce_freq_secs := 1 }, tun := () } :=
  ⟨rfl, rfl⟩

/-- When every entry before a failing destination string parses and the
entries processed so far have pairwise-distinct keys, the setup reaches the
failing entry and aborts with the parse failure (no earlier duplicate-key
assertion fires). -/
theorem buildPeerMap_parse_first (parseHash : String → Option AddressHash) :
    ∀ (pre post : List (IpNet × String)) (acc : PeerMap) (ip : IpNet)
      (s : String),
      parseHash s = none →
      (∀ e ∈ pre, (parseHash e.2).isSome = true) →
      (keysOf acc ++ pre.map (fun e => e.1.addr)).Nodup →
      buildPeerMap parseHash (pre ++ (ip, s) :: post) acc = .parseAbort
  | [], post, acc, ip, s => by
    intro hfail _ _
    simp only [List.nil_append, buildPeerMap, hfail]
  | (ip0, s0) :: pre, post, acc, ip, s => by
    intro hfail hpre hnd
    obtain ⟨d, hd⟩ := Option.isSome_iff_exists.mp
      (hpre (ip0, s0) (List.mem_cons_self _ _))
    have hd1 : parseHash s0 = some d := hd
    simp only [List.cons_append, buildPeerMap, hd1]
    have hnotmem : ip0.addr ∉ keysOf acc := by
      have h2 := hnd
      rw [List.nodup_append] at h2
      intro hm
      exact h2.2.2 hm (by simp)
    have hdup : ¬ (lookupPm acc ip0.addr).isSome = true := by
      rw [lookupPm_eq_none acc ip0.addr hnotmem]
      simp
    rw [if_neg hdup]
    apply buildPeerMap_parse_first parseHash pre post _ ip s hfail
      (fun e he => hpre e (List.mem_cons_of_mem _ he))
    rw [keysOf_append, List.append_assoc]
    exact hnd

/-- C7 (amended): for every configuration containing a peer
destination-identifier string that fails to parse as an address hash, the
failure escapes `Client::new`, and the peer-map setup at the start of
`Client::run` never yields a registry, so no loop ever starts; moreover,
whenever the entries preceding the failing one all parse and carry
pairwise-distinct base addresses (so no earlier duplicate-key assertion
fires first), the setup reaches the failing entry, detects the parse
failure and `run` returns. -/
theorem c7_parse_failure_aborts_run (parseHash : String → Option AddressHash)
    (config : Config) (ip : IpNet) (s : String)
    (hmem : (ip, s) ∈ config.peers) (hfail : parseHash s = none) :
    (∀ pm, buildPeerMap parseHash config.peers [] ≠ .ok pm)
    ∧ ∀ pre post, config.peers = pre ++ (ip, s) :: post →
        (∀ e ∈ pre, (parseHash e.2).isSome = true) →
        (pre.map (fun e => e.1.addr)).Nodup →
        buildPeerMap parseHash config.peers [] = .parseAbort := by
  constructor
  · intro pm hok
    have hsome := buildPeerMap_ok_parses parseHash config.peers [] pm hok
      (ip, s) hmem
    rw [hfail] at hsome
    cases hsome
  · intro pre post hsplit hpre hnd
    rw [hsplit]
    exact buildPeerMap_parse_first parseHash pre post [] ip s hfail hpre hnd

/-- Witness for C7 (amended): a two-peer configuration whose first
destination string parses and whose second is `"zz"`: the setup yields no
registry and aborts with the parse failure. -/
theorem c7_parse_failure_aborts_run_witness :
    (buildPeerMap hexParse16
        [({ addr := 3, prefixLen := 8 }, "00000000000000000000000000000001"),
         ({ addr := 2, prefixLen := 32 }, "zz")] [] ≠ .ok [])
    ∧ buildPeerMap hexParse16
        [({ addr := 3, prefixLen := 8 }, "00000000000000000000000000000001"),
         ({ addr := 2, prefixLen := 32 }, "zz")] []
      = .parseAbort :=
  ⟨(c7_parse_failure_aborts_run hexParse16
      { vpn_ip := { addr := 1, prefixLen := 32 },
        peers := [({ addr := 3, prefixLen := 8 },
                   "00000000000000000000000000000001"),
                  ({ addr := 2, prefixLen := 32 }, "zz")],
        announce_freq_secs := 1 }
      { addr := 2, prefixLen := 32 } "zz" (by decide) rfl).1 [],
   (c7_parse_failure_aborts_run hexParse16
      { vpn_ip := { addr := 1, prefixLen := 32 },
        peers := [({ addr := 3, prefixLen := 8 },
                   "00000000000000000000000000000001"),
                  ({ addr := 2, prefixLen := 32 }, "zz")],
        announce_freq_secs := 1 }
      { addr := 2, prefixLen := 32 } "zz" (by decide) rfl).2
     [({ addr := 3, prefixLen := 8 }, "00000000000000000000000000000001")]
     [] rfl (by decide) (by decide)⟩

/-- Concrete two-peer configuration for the C9 theorems: the first prefix
(10.0.0.0/8, base address 167772160) strictly contains the second
(10.0.0.5/32, base address 167772165). -/
def peersC9 : List (IpNet × String) :=
  [({ addr := 167772160, prefixLen := 8 }, "00000000000000000000000000000001"),
   ({ addr := 167772165, prefixLen := 32 }, "00000000000000000000000000000002")]

/-- The registry built from `peersC9`. -/
def pmC9 : PeerMap :=
  [(167772160, { dest := 1, link_id := none, link_active := false }),
   (167772165, { dest := 2, link_id := none, link_active := false })]

/-- `pmC9` after an announce from destination 2 established a link. -/
def pmC9linked : PeerMap :=
  [(167772160, { dest := 1, link_id := none, link_active := false }),
   (167772165, { dest := 2, link_id := some 42, link_active := false })]

/-- Counterexample for C9: with the configuration `peersC9` and the
reachable registry `pmC9linked`, the egress packet to 10.0.0.5 has a
destination that lies within the first peer's prefix 10.0.0.0/8 and differs
from that prefix's base address, yet a peer (the second) is matched and the
packet is transmitted rather than dropped. -/
theorem c9_counterexample :
    buildPeerMap hexParse16 peersC9 [] = .ok pmC9
    ∧ (linkStepGo (fun _ => 42) 2 pmC9).1 = pmC9linked
    ∧ IpNet.contains { addr := 167772160, prefixLen := 8 } 167772165 = true
    ∧ (167772165 : IpAddr) ≠ ({ addr := 167772160, prefixLen := 8 } : IpNet).addr
    ∧ (tunStep pmC9linked (fun d => if d = 2 then some 42 else none)
        (fun _ => some 167772165) [1, 2, 3]).2 = [(42, [1, 2, 3])] :=
  ⟨rfl, by decide, by decide, by decide, rfl⟩

/-- C9 (amended): the runtime peer table keys each peer by the address
component (base address) of its configured virtual-IP prefix, in
configuration order, and egress resolution matches a peer only by exact
equality of the packet's destination address with one of those base
addresses: a packet whose destination equals no peer's base address matches
no peer and is dropped, even when it lies within some peer's prefix. -/
theorem c9_exact_key_resolution (parseHash : String → Option AddressHash)
    (peers : List (IpNet × String)) (pm : PeerMap)
    (hok : buildPeerMap parseHash peers [] = .ok pm) :
    keysOf pm = peers.map (fun e => e.1.addr)
    ∧ ∀ (findOutLink : AddressHash → Option LinkId)
        (parseDest : List Nat → Option IpAddr) (bytes : List Nat)
        (dip : IpAddr), parseDest bytes = some dip →
        (∀ e ∈ peers, e.1.addr ≠ dip) →
        tunStep pm findOutLink parseDest bytes = (pm, []) := by
  have hkeys : keysOf pm = peers.map (fun e => e.1.addr) := by
    simpa using buildPeerMap_ok_keys parseHash peers [] pm hok
  refine ⟨hkeys, ?_⟩
  intro findOutLink parseDest bytes dip hpd hne
  have hnot : dip ∉ keysOf pm := by
    rw [hkeys]
    intro hmem
    obtain ⟨e, he, heq⟩ := List.mem_map.mp hmem
    exact hne e he heq
  simp only [tunStep, hpd, lookupPm_eq_none pm dip hnot]

/-- Witness for C9 (amended) at the concrete configuration `peersC9` and a
destination (10.0.0.1) equal to no peer's base address. -/
theorem c9_exact_key_resolution_witness :
    keysOf pmC9 = peersC9.map (fun e => e.1.addr)
    ∧ tunStep pmC9 (fun _ => none) (fun _ => some 167772161) [7]
      = (pmC9, []) :=
  ⟨(c9_exact_key_resolution hexParse16 peersC9 pmC9 rfl).1,
   (c9_exact_key_resolution hexParse16 peersC9 pmC9 rfl).2
     (fun _ => none) (fun _ => some 167772161) [7] 167772161 rfl (by decide)⟩

/-- Counterexample for C10: a configuration with two distinct peer prefix
keys (10.0.0.0/8 and 10.0.0.0/16) sharing the base address 167772160, whose
first destination string fails to parse: the peer-map construction aborts
with the parse failure instead of panicking, so the claim's unconditional
panic does not hold. -/
theorem c10_counterexample :
    ({ addr := 167772160, prefixLen := 8 } : IpNet)
      ≠ { addr := 167772160, prefixLen := 16 }
    ∧ ({ addr := 167772160, prefixLen := 8 } : IpNet).addr
      = ({ addr := 167772160, prefixLen := 16 } : IpNet).addr
    ∧ buildPeerMap hexParse16
        [({ addr := 167772160, prefixLen := 8 }, "zz"),
         ({ addr := 167772160, prefixLen := 16 },
          "00000000000000000000000000000001")] []
      = .parseAbort :=
  ⟨by decide, rfl, rfl⟩

/-- C10 (amended): for every configuration in which two distinct peer prefix
keys have the same base address and all peer destination strings parse
successfully, the run panics (the `assert!` on `peer_map.insert` fails)
during peer-map construction, before any loop starts, rather than reporting
a configuration error. -/
theorem c10_duplicate_base_addr_panics
    (parseHash : String → Option AddressHash)
    (peers : List (IpNet × String))
    (hkeys : (peers.map (fun e => e.1)).Nodup)
    (hparse : ∀ e ∈ peers, (parseHash e.2).isSome = true)
    (hdup : ¬ (peers.map (fun e => e.1.addr)).Nodup) :
    buildPeerMap parseHash peers [] = .dupKeyPanic := by
  rw [buildPeerMap_panic_iff parseHash peers [] hparse (by simp [keysOf])]
  simpa using hdup

/-- Witness for C10 (amended): two distinct prefixes with base address 3 and
well-formed destination strings make the setup panic. -/
theorem c10_duplicate_base_addr_panics_witness :
    buildPeerMap hexParse16
      [({ addr := 3, prefixLen := 8 }, "00000000000000000000000000000001"),
       ({ addr := 3, prefixLen := 16 }, "00000000000000000000000000000001")] []
      = .dupKeyPanic :=
  c10_duplicate_base_addr_panics hexParse16
    [({ addr := 3, prefixLen := 8 }, "00000000000000000000000000000001"),
     ({ addr := 3, prefixLen := 16 }, "00000000000000000000000000000001")]
    (by decide) (by decide) (by decide)

end RnsVpn
